import Mathlib

/-!
Shallow embedding of `server.py` (us_stock_mcp_server): a local CSV cache of
historical stock prices with a fetch-merge-persist update path.

Modelling conventions:
* A pandas timestamp is a calendar date plus a time-of-day in seconds
  (`sec = 0` models a pure date).  Ordering is lexicographic, which agrees
  with chronological order on normalized timestamps.
* The filesystem is a map from paths to optional file contents.  A file is
  either a parseable table of rows (in file order) or a file whose date
  column `pd.to_datetime` cannot parse.
* Exceptions raised by external collaborators (pydantic validation, the
  yfinance fetch, file I/O) are injected as `Except` values or explicit
  failure selectors; `try/except` blocks become pattern matches.
-/

/-- A pandas timestamp in a series index: calendar date plus time-of-day
in seconds. -/
structure Timestamp where
  y : Nat
  m : Nat
  d : Nat
  sec : Nat
deriving DecidableEq

/-- Strict chronological (lexicographic) order on timestamps. -/
def tsLt (a b : Timestamp) : Prop :=
  a.y < b.y ∨ (a.y = b.y ∧ (a.m < b.m ∨ (a.m = b.m ∧
    (a.d < b.d ∨ (a.d = b.d ∧ a.sec < b.sec)))))

/-- Reflexive chronological order on timestamps. -/
def tsLe (a b : Timestamp) : Prop := tsLt a b ∨ a = b

instance (a b : Timestamp) : Decidable (tsLt a b) := by
  unfold tsLt; infer_instance

instance (a b : Timestamp) : Decidable (tsLe a b) := by
  unfold tsLe; infer_instance

theorem tsLt_trichotomy (a b : Timestamp) : tsLt a b ∨ a = b ∨ tsLt b a := by
  obtain ⟨a1, a2, a3, a4⟩ := a
  obtain ⟨b1, b2, b3, b4⟩ := b
  simp only [tsLt, Timestamp.mk.injEq]
  omega

theorem tsLt_trans {a b c : Timestamp} (h1 : tsLt a b) (h2 : tsLt b c) :
    tsLt a c := by
  obtain ⟨a1, a2, a3, a4⟩ := a
  obtain ⟨b1, b2, b3, b4⟩ := b
  obtain ⟨c1, c2, c3, c4⟩ := c
  simp only [tsLt] at h1 h2 ⊢
  omega

theorem tsLt_irrefl (a : Timestamp) : ¬ tsLt a a := by
  obtain ⟨a1, a2, a3, a4⟩ := a
  simp only [tsLt]
  omega

theorem tsLe_total (a b : Timestamp) : tsLe a b ∨ tsLe b a := by
  rcases tsLt_trichotomy a b with h | h | h
  · exact Or.inl (Or.inl h)
  · exact Or.inl (Or.inr h)
  · exact Or.inr (Or.inl h)

theorem tsLe_trans {a b c : Timestamp} (h1 : tsLe a b) (h2 : tsLe b c) :
    tsLe a c := by
  rcases h1 with h1 | rfl
  · rcases h2 with h2 | rfl
    · exact Or.inl (tsLt_trans h1 h2)
    · exact Or.inl h1
  · exact h2

theorem tsLt_of_tsLe_of_ne {a b : Timestamp} (h : tsLe a b) (hne : a ≠ b) :
    tsLt a b := by
  rcases h with h | rfl
  · exact h
  · exact absurd rfl hne

/-- One row of price data: the five canonical columns the code keeps
(`keep_columns = ['Open', 'High', 'Low', 'Close', 'Volume']`). -/
structure Row where
  open_ : Int
  high : Int
  low : Int
  close : Int
  volume : Int
deriving DecidableEq

/-- An indexed row of a series: pandas index value paired with the data. -/
abbrev Entry := Timestamp × Row

/-- The index (date column) of a series. -/
def dates (s : List Entry) : List Timestamp := s.map Prod.fst

@[simp] theorem dates_nil : dates [] = [] := rfl

@[simp] theorem dates_cons (e : Entry) (s : List Entry) :
    dates (e :: s) = e.1 :: dates s := rfl

@[simp] theorem dates_append (s t : List Entry) :
    dates (s ++ t) = dates s ++ dates t := by
  simp [dates]

/-- `df.sort_values(by='Date', ascending=False)` / `df.sort_index(ascending=False)`:
the order relation placing later dates first. -/
def entGe (a b : Entry) : Prop := tsLe b.1 a.1

instance : DecidableRel entGe := fun a b => by unfold entGe; infer_instance

instance : IsTotal Entry entGe :=
  ⟨fun a b => (tsLe_total b.1 a.1).elim Or.inl Or.inr⟩

instance : IsTrans Entry entGe :=
  ⟨fun _ _ _ h1 h2 => tsLe_trans h2 h1⟩

/-- Sorting a series descending by date. -/
def sortDesc (s : List Entry) : List Entry := List.insertionSort entGe s

theorem sortDesc_perm (s : List Entry) : List.Perm (sortDesc s) s :=
  List.perm_insertionSort entGe s

theorem sortDesc_sorted (s : List Entry) : List.Sorted entGe (sortDesc s) :=
  List.sorted_insertionSort entGe s

/-- `df_combined[~df_combined.index.duplicated(keep='last')]`: an entry is
kept exactly when its index value does not occur again later in the frame. -/
def dedupKeepLast : List Entry → List Entry
  | [] => []
  | e :: rest =>
    if e.1 ∈ dates rest then dedupKeepLast rest
    else e :: dedupKeepLast rest

/-- Lines 103-104 of `server.py`: `pd.concat([df_old, df_new])` followed by
dropping duplicated index values, keeping the last occurrence. -/
def combineRows (old new : List Entry) : List Entry :=
  dedupKeepLast (old ++ new)

/-- The full merge performed by `update_stock_data` when a prior file parses:
combine rows (new wins per date), then sort descending (line 112). -/
def mergeSeries (old new : List Entry) : List Entry :=
  sortDesc (combineRows old new)

/-- Rows are weakly descending by date. -/
def DescDates (s : List Entry) : Prop :=
  List.Pairwise (fun a b : Entry => tsLe b.1 a.1) s

/-- Rows are strictly descending by date. -/
def StrictDescDates (s : List Entry) : Prop :=
  List.Pairwise (fun a b : Entry => tsLt b.1 a.1) s

instance instDecPairwise {α : Type} (R : α → α → Prop) [DecidableRel R] :
    ∀ l : List α, Decidable (List.Pairwise R l)
  | [] => .isTrue List.Pairwise.nil
  | a :: l =>
    haveI := instDecPairwise R l
    decidable_of_iff ((∀ b ∈ l, R a b) ∧ List.Pairwise R l)
      List.pairwise_cons.symm

instance (s : List Entry) : Decidable (DescDates s) := by
  unfold DescDates; infer_instance

instance (s : List Entry) : Decidable (StrictDescDates s) := by
  unfold StrictDescDates; infer_instance

/-- On-disk content of one cache file: a parseable table of rows (in file
order), or a file whose date column cannot be parsed (any exception in
`pd.read_csv` / `set_index('Date')` / `pd.to_datetime`). -/
inductive FileContent where
  | table : List Entry → FileContent
  | malformed : FileContent
deriving DecidableEq

/-- The data directory: a map from file names to optional file contents. -/
def FS : Type := String → Option FileContent

/-- Writing (or deleting, with `none`) one path of the filesystem. -/
def fsSet (fs : FS) (p : String) (c : Option FileContent) : FS :=
  fun q => if q = p then c else fs q

@[simp] theorem fsSet_same (fs : FS) (p : String) (c : Option FileContent) :
    fsSet fs p c p = c := by
  simp [fsSet]

theorem fsSet_other (fs : FS) (p q : String) (c : Option FileContent)
    (h : q ≠ p) : fsSet fs p c q = fs q := by
  simp [fsSet, h]

/-- `BASE_DATA_DIR / f"{stock_code}.csv"`: the path is built from the symbol
exactly as given — no case normalization. -/
def filePath (symbol : String) : String := symbol ++ ".csv"

/-- Which step of `save_dataframe_to_csv` raises, if any:
temp-file creation, the `df.to_csv` write, or the `shutil.move` rename. -/
inductive SaveFailure where
  | tempCreate
  | tempWrite
  | rename
  | ok
deriving DecidableEq

/-- Result of the save: the new filesystem, with the propagated error
message when a step raised. -/
inductive SaveResult where
  | ok : FS → SaveResult
  | error : String → FS → SaveResult

/-- `save_dataframe_to_csv` (lines 33-52): create a temporary file in the
data directory, write the frame to it, atomically rename it onto the
target; on a failure after the temporary file exists, unlink the
temporary file and re-raise. -/
def save_dataframe_to_csv (df : List Entry) (file_path temp_path : String)
    (fs : FS) (f : SaveFailure) : SaveResult :=
  match f with
  | .tempCreate => .error "tempfile creation failed" fs
  | .tempWrite =>
    let fs1 := fsSet fs temp_path (some (.table []))
    let fs2 := fsSet fs1 temp_path none
    .error "temp write failed" fs2
  | .rename =>
    let fs1 := fsSet fs temp_path (some (.table df))
    let fs2 := fsSet fs1 temp_path none
    .error "rename failed" fs2
  | .ok =>
    let fs1 := fsSet fs temp_path (some (.table df))
    let fs2 := fsSet (fsSet fs1 temp_path none) file_path (some (.table df))
    .ok fs2

/-- `read_local_stock_data` (lines 54-67): return `None` when the file does
not exist; parse the date column and sort descending; any exception is
caught and also yields `None`. -/
def read_local_stock_data (fs : FS) (stock_code : String) :
    Option (List Entry) :=
  match fs (filePath stock_code) with
  | none => none
  | some .malformed => none
  | some (.table rows) => some (sortDesc rows)

/-- The `{'status': ..., 'message': ...}` dictionary returned by
`update_stock_data`. -/
structure UpdateResult where
  status : String
  message : String
deriving DecidableEq

/-- Lines 95-109 of `update_stock_data`: when a cached file exists and
parses, combine it with the fetched rows; when parsing raises, log and
fall back to the fetched rows alone; when no file exists, use the fetched
rows. -/
def updCombined (symbol : String) (fs : FS) (df_new : List Entry) :
    List Entry :=
  match fs (filePath symbol) with
  | some (.table df_old) => combineRows df_old df_new
  | some .malformed => df_new
  | none => df_new

/-- `update_stock_data` (lines 69-136).  The yfinance fetch is injected as
an `Except` value (an exception or the downloaded rows, already
column-normalized to Open/High/Low/Close/Volume by lines 89-93); the save
step's failure behaviour is injected via `f`.  Returns the result
dictionary and the filesystem after the call. -/
def update_stock_data (symbol : String)
    (fetch : Except String (List Entry)) (fs : FS)
    (temp_path : String) (f : SaveFailure) : UpdateResult × FS :=
  match fetch with
  | .error e =>
    (⟨"error", "Error updating data for " ++ symbol ++ ": " ++ e⟩, fs)
  | .ok df_new =>
    if df_new.isEmpty then
      (⟨"error", "Unable to fetch data for " ++ symbol⟩, fs)
    else
      let df_sorted := sortDesc (updCombined symbol fs df_new)
      match save_dataframe_to_csv df_sorted (filePath symbol) temp_path fs f with
      | .ok fs2 =>
        (⟨"success", "Successfully updated data for " ++ symbol⟩, fs2)
      | .error msg fs2 =>
        (⟨"error", "Error saving data: " ++ msg⟩, fs2)

/-- The `{'status', 'message', 'data'}` dictionary returned by the read
tool. -/
structure ToolResult where
  status : String
  message : String
  data : List Entry
deriving DecidableEq

/-- `get_local_stock_data` (lines 162-193): validate the arguments (the
pydantic validation outcome is injected as an `Except`), read the local
file, and convert any exception into an error dictionary. -/
def get_local_stock_data (args : Except String String) (fs : FS) :
    ToolResult :=
  match args with
  | .error e => ⟨"error", "Error retrieving data: " ++ e, []⟩
  | .ok symbol =>
    match read_local_stock_data fs symbol with
    | none => ⟨"error", "Data not found for symbol " ++ symbol, []⟩
    | some data =>
      ⟨"success", "Successfully retrieved historical data for " ++ symbol,
        data⟩

/-- `update_stock_data_tool` (lines 195-222): validate the arguments
(symbol, start date), run the update, sleep, and convert any exception
into an error dictionary.  The start date only parametrizes the injected
fetch, and the sleep has no filesystem effect. -/
def update_stock_data_tool (args : Except String (String × String))
    (fetch : Except String (List Entry)) (fs : FS)
    (temp_path : String) (f : SaveFailure) : UpdateResult × FS :=
  match args with
  | .error e => (⟨"error", "Error updating data: " ++ e⟩, fs)
  | .ok (symbol, _start_date) =>
    update_stock_data symbol fetch fs temp_path f

/-- Zero-padding to two digits. -/
def pad2 (n : Nat) : String := if n < 10 then "0" ++ toString n else toString n

/-- Zero-padding to four digits. -/
def pad4 (n : Nat) : String :=
  if n < 10 then "000" ++ toString n
  else if n < 100 then "00" ++ toString n
  else if n < 1000 then "0" ++ toString n
  else toString n

/-- The YYYY-MM-DD rendering of a timestamp's calendar date. -/
def fmtDate (t : Timestamp) : String :=
  pad4 t.y ++ "-" ++ pad2 t.m ++ "-" ++ pad2 t.d

/-- The HH:MM:SS rendering of a time-of-day in seconds. -/
def fmtTime (sec : Nat) : String :=
  pad2 (sec / 3600) ++ ":" ++ pad2 (sec % 3600 / 60) ++ ":" ++ pad2 (sec % 60)

/-- pandas `to_csv` renders a datetime column date-only exactly when every
value in the column is a midnight (dates-only) value. -/
def datesOnlyB (s : List Entry) : Bool := s.all (fun e => e.1.sec == 0)

/-- One date cell of the CSV: date-only or date plus time, as `to_csv`
formats the whole column. -/
def dateCell (dOnly : Bool) (t : Timestamp) : String :=
  if dOnly then fmtDate t else fmtDate t ++ " " ++ fmtTime t.sec

/-- One data line of the CSV written by `df.to_csv(..., index=False)`. -/
def rowLine (dOnly : Bool) (e : Entry) : String :=
  dateCell dOnly e.1 ++ "," ++ toString e.2.open_ ++ "," ++ toString e.2.high
    ++ "," ++ toString e.2.low ++ "," ++ toString e.2.close ++ ","
    ++ toString e.2.volume

/-- The header line `to_csv` writes for the merged frame after
`reset_index`. -/
def csvHeader : String := "Date,Open,High,Low,Close,Volume"

/-- The text `df.to_csv(temp_path, index=False)` produces for a series. -/
def toCsvLines (s : List Entry) : List String :=
  csvHeader :: s.map (rowLine (datesOnlyB s))

/-- The single row a series holds for a date: image of `df.loc[date]` when
the index is unique. -/
def findRow (s : List Entry) (d : Timestamp) : Option Row :=
  (s.find? (fun e => decide (e.1 = d))).map Prod.snd

/-- The LAST row a frame holds for a date: later occurrences take
precedence over earlier ones. -/
def lastRow : List Entry → Timestamp → Option Row
  | [], _ => none
  | e :: rest, d =>
    match lastRow rest d with
    | some r => some r
    | none => if e.1 = d then some e.2 else none

@[simp] theorem findRow_nil (d : Timestamp) : findRow [] d = none := rfl

theorem findRow_cons (e : Entry) (s : List Entry) (d : Timestamp) :
    findRow (e :: s) d = if e.1 = d then some e.2 else findRow s d := by
  by_cases h : e.1 = d
  · simp [findRow, List.find?_cons_of_pos, h]
  · simp [findRow, List.find?_cons_of_neg, h]

theorem lastRow_eq_none_iff (s : List Entry) (d : Timestamp) :
    lastRow s d = none ↔ d ∉ dates s := by
  induction s with
  | nil => simp [lastRow]
  | cons e rest ih =>
    cases hrest : lastRow rest d with
    | some r =>
      have hd : d ∈ dates rest := by
        by_contra hc
        have h0 := ih.mpr hc
        rw [hrest] at h0
        exact Option.noConfusion h0
      simp [lastRow, hrest, hd]
    | none =>
      have hd : d ∉ dates rest := ih.mp hrest
      by_cases h : e.1 = d
      · simp [lastRow, hrest, h]
      · have hne : ¬ (d = e.1 ∨ d ∈ dates rest) := by
          rintro (rfl | hc)
          · exact h rfl
          · exact hd hc
        simp [lastRow, hrest, h, hne]

@[simp] theorem lastRow_cons (e : Entry) (s : List Entry) (d : Timestamp) :
    lastRow (e :: s) d =
      match lastRow s d with
      | some r => some r
      | none => if e.1 = d then some e.2 else none := rfl

theorem mem_dates_dedupKeepLast (s : List Entry) (d : Timestamp) :
    d ∈ dates (dedupKeepLast s) ↔ d ∈ dates s := by
  induction s with
  | nil => simp [dedupKeepLast]
  | cons e rest ih =>
    by_cases h : e.1 ∈ dates rest
    · rw [show dedupKeepLast (e :: rest) = dedupKeepLast rest from by
        simp [dedupKeepLast, h]]
      rw [ih, dates_cons, List.mem_cons]
      constructor
      · exact Or.inr
      · rintro (rfl | hc)
        · exact h
        · exact hc
    · rw [show dedupKeepLast (e :: rest) = e :: dedupKeepLast rest from by
        simp [dedupKeepLast, h]]
      simp [ih]

theorem dates_dedupKeepLast_nodup (s : List Entry) :
    (dates (dedupKeepLast s)).Nodup := by
  induction s with
  | nil => simp [dedupKeepLast]
  | cons e rest ih =>
    by_cases h : e.1 ∈ dates rest
    · rw [show dedupKeepLast (e :: rest) = dedupKeepLast rest from by
        simp [dedupKeepLast, h]]
      exact ih
    · rw [show dedupKeepLast (e :: rest) = e :: dedupKeepLast rest from by
        simp [dedupKeepLast, h]]
      rw [dates_cons, List.nodup_cons]
      exact ⟨fun hc => h ((mem_dates_dedupKeepLast rest e.1).mp hc), ih⟩

theorem findRow_dedupKeepLast (s : List Entry) (d : Timestamp) :
    findRow (dedupKeepLast s) d = lastRow s d := by
  induction s with
  | nil => rfl
  | cons e rest ih =>
    by_cases h : e.1 ∈ dates rest
    · rw [show dedupKeepLast (e :: rest) = dedupKeepLast rest from by
        simp [dedupKeepLast, h]]
      rw [ih, lastRow_cons]
      cases hrest : lastRow rest d with
      | some r => rfl
      | none =>
        have hd : d ∉ dates rest := (lastRow_eq_none_iff rest d).mp hrest
        have hne : ¬ e.1 = d := fun hc => hd (by rw [← hc]; exact h)
        simp [hne]
    · rw [show dedupKeepLast (e :: rest) = e :: dedupKeepLast rest from by
        simp [dedupKeepLast, h]]
      rw [findRow_cons, ih, lastRow_cons]
      by_cases hed : e.1 = d
      · have hd : d ∉ dates rest := by rw [← hed]; exact h
        rw [(lastRow_eq_none_iff rest d).mpr hd]
      · cases hrest : lastRow rest d with
        | some r => simp [hed]
        | none => rfl

theorem findRow_mem {s : List Entry} {d : Timestamp} {r : Row}
    (h : findRow s d = some r) : (d, r) ∈ s := by
  unfold findRow at h
  cases hf : s.find? (fun e => decide (e.1 = d)) with
  | none => rw [hf] at h; exact Option.noConfusion h
  | some e =>
    rw [hf] at h
    have hp := List.find?_some hf
    have hm := List.mem_of_find?_eq_some hf
    have h1 : e.1 = d := of_decide_eq_true hp
    have h2 : e.2 = r := by simpa using h
    obtain ⟨e1, e2⟩ := e
    cases h1
    cases h2
    exact hm

theorem findRow_eq_some_of_mem {s : List Entry} (hnd : (dates s).Nodup)
    {d : Timestamp} {r : Row} (hm : (d, r) ∈ s) : findRow s d = some r := by
  induction s with
  | nil => cases hm
  | cons e rest ih =>
    rw [dates_cons, List.nodup_cons] at hnd
    rw [findRow_cons]
    rcases List.mem_cons.mp hm with rfl | hmem
    · simp
    · have hdr : d ∈ dates rest := by
        unfold dates
        exact List.mem_map_of_mem Prod.fst hmem
      have hne : ¬ e.1 = d := fun hc => hnd.1 (by rw [hc]; exact hdr)
      rw [if_neg hne]
      exact ih hnd.2 hmem

theorem findRow_eq_none_iff (s : List Entry) (d : Timestamp) :
    findRow s d = none ↔ d ∉ dates s := by
  induction s with
  | nil => simp
  | cons e rest ih =>
    rw [findRow_cons]
    by_cases h : e.1 = d
    · simp [h]
    · simp [h, ih, Ne.symm h]

theorem dates_perm {s t : List Entry} (hp : List.Perm s t) :
    List.Perm (dates s) (dates t) := hp.map Prod.fst

theorem findRow_perm {s t : List Entry} (hp : List.Perm s t)
    (hnd : (dates s).Nodup) (d : Timestamp) : findRow s d = findRow t d := by
  have hndt : (dates t).Nodup := ((dates_perm hp).nodup_iff).mp hnd
  cases hfs : findRow s d with
  | none =>
    rw [findRow_eq_none_iff] at hfs
    symm
    rw [findRow_eq_none_iff]
    intro hc
    exact hfs (((dates_perm hp).mem_iff).mpr hc)
  | some r =>
    have hm : (d, r) ∈ s := findRow_mem hfs
    have hmt : (d, r) ∈ t := hp.mem_iff.mp hm
    exact (findRow_eq_some_of_mem hndt hmt).symm

theorem lastRow_append_of_mem {t : List Entry} {d : Timestamp}
    (hd : d ∈ dates t) (s : List Entry) :
    lastRow (s ++ t) d = lastRow t d := by
  induction s with
  | nil => rw [List.nil_append]
  | cons e rest ih =>
    have hne : lastRow t d ≠ none :=
      fun hc => ((lastRow_eq_none_iff t d).mp hc) hd
    obtain ⟨r, hr⟩ := Option.ne_none_iff_exists'.mp hne
    rw [List.cons_append, lastRow_cons, ih, hr]

theorem lastRow_append_of_not_mem {t : List Entry} {d : Timestamp}
    (hd : d ∉ dates t) (s : List Entry) :
    lastRow (s ++ t) d = lastRow s d := by
  induction s with
  | nil =>
    rw [List.nil_append]
    exact (lastRow_eq_none_iff t d).mpr hd
  | cons e rest ih =>
    rw [List.cons_append, lastRow_cons, ih, lastRow_cons]

theorem lastRow_eq_findRow_of_nodup {s : List Entry}
    (hnd : (dates s).Nodup) (d : Timestamp) : lastRow s d = findRow s d := by
  induction s with
  | nil => rfl
  | cons e rest ih =>
    rw [dates_cons, List.nodup_cons] at hnd
    rw [lastRow_cons, findRow_cons, ih hnd.2]
    by_cases h : e.1 = d
    · have hd : d ∉ dates rest := by rw [← h]; exact hnd.1
      rw [show findRow rest d = none from (findRow_eq_none_iff rest d).mpr hd]
    · cases hf : findRow rest d with
      | some r => simp [h]
      | none => rfl

theorem descDates_sortDesc (s : List Entry) : DescDates (sortDesc s) := by
  have h := sortDesc_sorted s
  unfold DescDates
  exact List.Pairwise.imp (fun hab => hab) h

theorem strictDesc_of_desc_nodup {s : List Entry} (hd : DescDates s)
    (hnd : (dates s).Nodup) : StrictDescDates s := by
  unfold DescDates at hd
  unfold StrictDescDates
  have h1 : List.Pairwise (fun a b : Timestamp => a ≠ b)
      (List.map Prod.fst s) := hnd
  have h2 : List.Pairwise (fun a b : Entry => a.1 ≠ b.1) s :=
    List.pairwise_map.mp h1
  have h3 := hd.and h2
  exact h3.imp (fun hab =>
    tsLt_of_tsLe_of_ne hab.1 (fun hc => hab.2 hc.symm))

theorem dates_mergeSeries_nodup (old new : List Entry) :
    (dates (mergeSeries old new)).Nodup :=
  ((dates_perm (sortDesc_perm (combineRows old new))).nodup_iff).mpr
    (dates_dedupKeepLast_nodup (old ++ new))

theorem mergeSeries_strictDesc (old new : List Entry) :
    StrictDescDates (mergeSeries old new) :=
  strictDesc_of_desc_nodup (descDates_sortDesc _)
    (dates_mergeSeries_nodup old new)

theorem findRow_mergeSeries (old new : List Entry) (d : Timestamp) :
    findRow (mergeSeries old new) d = lastRow (old ++ new) d := by
  have h1 : findRow (mergeSeries old new) d =
      findRow (combineRows old new) d :=
    findRow_perm (sortDesc_perm _) (dates_mergeSeries_nodup old new) d
  rw [h1]
  exact findRow_dedupKeepLast _ d

theorem mem_dates_mergeSeries (old new : List Entry) (d : Timestamp) :
    d ∈ dates (mergeSeries old new) ↔ d ∈ dates old ∨ d ∈ dates new := by
  rw [show mergeSeries old new = sortDesc (combineRows old new) from rfl]
  rw [(dates_perm (sortDesc_perm (combineRows old new))).mem_iff]
  rw [show combineRows old new = dedupKeepLast (old ++ new) from rfl]
  rw [mem_dates_dedupKeepLast, dates_append, List.mem_append]

theorem append_ne_empty_left (a b : String) (h : a ≠ "") : a ++ b ≠ "" := by
  intro hc
  apply h
  have hd := congrArg String.data hc
  rw [String.data_append] at hd
  have ha : a.data = [] := (List.append_eq_nil.mp hd).1
  exact String.ext ha

theorem dates_sortDesc_nodup {s : List Entry} (h : (dates s).Nodup) :
    (dates (sortDesc s)).Nodup :=
  ((dates_perm (sortDesc_perm s)).nodup_iff).mpr h

theorem updCombined_nodup (symbol : String) (fs : FS) {df_new : List Entry}
    (hnd : (dates df_new).Nodup) :
    (dates (updCombined symbol fs df_new)).Nodup := by
  unfold updCombined
  cases fs (filePath symbol) with
  | none => exact hnd
  | some c =>
    cases c with
    | malformed => exact hnd
    | table df_old => exact dates_dedupKeepLast_nodup (df_old ++ df_new)

theorem update_ok_writes (symbol : String) (rows : List Entry) (fs : FS)
    (temp_path : String) (hne : rows.isEmpty = false) :
    update_stock_data symbol (Except.ok rows) fs temp_path SaveFailure.ok
      = (⟨"success", "Successfully updated data for " ++ symbol⟩,
          fsSet
            (fsSet
              (fsSet fs temp_path
                (some (.table (sortDesc (updCombined symbol fs rows)))))
              temp_path none)
            (filePath symbol)
            (some (.table (sortDesc (updCombined symbol fs rows))))) := by
  simp only [update_stock_data, hne, Bool.false_eq_true, if_false,
    save_dataframe_to_csv]

/-- Sample data for concrete witnesses and counterexamples. -/
def exTs : Timestamp := ⟨2024, 1, 2, 0⟩

def exTs2 : Timestamp := ⟨2024, 1, 3, 0⟩

/-- A provider timestamp carrying a time-of-day (05:00:00), as tz-aware
yfinance timestamps do once represented in UTC. -/
def exTsTime : Timestamp := ⟨2024, 1, 2, 18000⟩

def exRow : Row := ⟨1, 2, 3, 4, 5⟩

def exRow2 : Row := ⟨6, 7, 8, 9, 10⟩

/-- A data directory with no files. -/
def emptyFS : FS := fun _ => none

/-- A directory whose only file, for symbol A, has a duplicated date. -/
def exDupFS : FS :=
  fsSet emptyFS (filePath "A") (some (.table [(exTs, exRow), (exTs, exRow)]))

/-- A directory whose only file, for symbol A, has an unparseable date
column. -/
def exBadFS : FS := fsSet emptyFS (filePath "A") (some .malformed)

/-- A directory holding one well-formed file for symbol AAPL. -/
def exUpperFS : FS := fsSet emptyFS (filePath "AAPL") (some (.table [(exTs, exRow)]))

/-- C1: for every frame and paths, if a step of `save_dataframe_to_csv`
fails after the temporary file is created (the temp-file write or the
rename), the call reports the error, the temporary file is removed, and
the whole data directory — in particular the previously persisted file at
the target path — is byte-identical to before the call; no intermediate
state is observable after the call. -/
theorem save_failure_atomic (df : List Entry) (file_path temp_path : String)
    (fs : FS) (f : SaveFailure)
    (hfresh : fs temp_path = none)
    (hf : f = SaveFailure.tempWrite ∨ f = SaveFailure.rename) :
    ∃ msg fs2, save_dataframe_to_csv df file_path temp_path fs f
        = SaveResult.error msg fs2
      ∧ fs2 = fs ∧ fs2 temp_path = none
      ∧ fs2 file_path = fs file_path := by
  have key : ∀ c, fsSet (fsSet fs temp_path c) temp_path none = fs := by
    intro c
    funext q
    by_cases hq : q = temp_path
    · subst hq
      simp [fsSet, hfresh]
    · simp [fsSet, hq]
  rcases hf with rfl | rfl
  · refine ⟨"temp write failed", _, rfl, key _, ?_, ?_⟩
    · rw [key]; exact hfresh
    · rw [key]
  · refine ⟨"rename failed", _, rfl, key _, ?_, ?_⟩
    · rw [key]; exact hfresh
    · rw [key]

/-- Witness for C1: a directory holding a cached AAPL file survives a
failing rename with the file untouched and the temporary file gone. -/
theorem save_failure_atomic_witness :
    exUpperFS "tmp0.csv" = none
    ∧ ∃ msg fs2, save_dataframe_to_csv [(exTs2, exRow2)] (filePath "AAPL")
        "tmp0.csv" exUpperFS SaveFailure.rename = SaveResult.error msg fs2
      ∧ fs2 = exUpperFS ∧ fs2 "tmp0.csv" = none
      ∧ fs2 (filePath "AAPL") = exUpperFS (filePath "AAPL") :=
  ⟨by decide,
    save_failure_atomic [(exTs2, exRow2)] (filePath "AAPL") "tmp0.csv"
      exUpperFS SaveFailure.rename (by decide) (Or.inr rfl)⟩

/-- C2: for unique-dated cached and fetched series and a date present in
both, the merged series' row for that date equals the freshly fetched row
(last-write-wins), whatever the two rows' price and volume fields are. -/
theorem merge_last_write_wins (old new : List Entry) (d : Timestamp)
    (hold : (dates old).Nodup) (hnew : (dates new).Nodup)
    (hdo : d ∈ dates old) (hdn : d ∈ dates new) :
    findRow (mergeSeries old new) d = findRow new d := by
  rw [findRow_mergeSeries, lastRow_append_of_mem hdn,
    lastRow_eq_findRow_of_nodup hnew]

/-- Witness for C2: a date in both series, with fields differing in every
column, resolves to the fetched row. -/
theorem merge_last_write_wins_witness :
    ((dates [(exTs, exRow)]).Nodup ∧ (dates [(exTs, exRow2)]).Nodup
      ∧ exTs ∈ dates [(exTs, exRow)] ∧ exTs ∈ dates [(exTs, exRow2)])
    ∧ findRow (mergeSeries [(exTs, exRow)] [(exTs, exRow2)]) exTs
        = findRow [(exTs, exRow2)] exTs :=
  ⟨by decide,
    merge_last_write_wins [(exTs, exRow)] [(exTs, exRow2)] exTs
      (by decide) (by decide) (by decide) (by decide)⟩

/-- C3: for unique-dated cached and fetched series, the merged series'
date set is exactly the union of the two date sets, and no date occurs
twice in the merged series. -/
theorem merge_dates_union (old new : List Entry)
    (hold : (dates old).Nodup) (hnew : (dates new).Nodup) :
    (∀ d, d ∈ dates (mergeSeries old new) ↔ d ∈ dates old ∨ d ∈ dates new)
    ∧ (dates (mergeSeries old new)).Nodup :=
  ⟨fun d => mem_dates_mergeSeries old new d, dates_mergeSeries_nodup old new⟩

/-- Witness for C3 at concrete one-row series with distinct dates. -/
theorem merge_dates_union_witness :
    ((dates [(exTs, exRow)]).Nodup ∧ (dates [(exTs2, exRow2)]).Nodup)
    ∧ (exTs2 ∈ dates (mergeSeries [(exTs, exRow)] [(exTs2, exRow2)])
        ↔ exTs2 ∈ dates [(exTs, exRow)] ∨ exTs2 ∈ dates [(exTs2, exRow2)])
    ∧ (dates (mergeSeries [(exTs, exRow)] [(exTs2, exRow2)])).Nodup :=
  ⟨by decide,
    (merge_dates_union [(exTs, exRow)] [(exTs2, exRow2)]
      (by decide) (by decide)).1 exTs2,
    (merge_dates_union [(exTs, exRow)] [(exTs2, exRow2)]
      (by decide) (by decide)).2⟩

/-- C6: when the provider returns an empty frame, `update_stock_data`
returns an error result whose message names the symbol, and the
filesystem — in particular any cached file for the symbol — is exactly
what it was before the call. -/
theorem update_empty_fetch_error (symbol : String) (fs : FS)
    (temp_path : String) (f : SaveFailure) :
    update_stock_data symbol (Except.ok []) fs temp_path f
      = (⟨"error", "Unable to fetch data for " ++ symbol⟩, fs) := rfl

/-- C10: even when the cached series contains several rows for the same
date, the merge keeps exactly one row per date — for each date the last
occurrence in the concatenation of old followed by new, so fetched rows
take precedence over every cached row — and the merged (written) series
has unique dates. -/
theorem merge_handles_duplicate_cache (old new : List Entry) :
    (dates (mergeSeries old new)).Nodup
    ∧ (∀ d, findRow (mergeSeries old new) d = lastRow (old ++ new) d)
    ∧ (∀ d, d ∈ dates new →
        findRow (mergeSeries old new) d = lastRow new d) := by
  refine ⟨dates_mergeSeries_nodup old new,
    fun d => findRow_mergeSeries old new d, fun d hd => ?_⟩
  rw [findRow_mergeSeries, lastRow_append_of_mem hd]

/-- C4 as stated is false on the read path: a cached file holding two rows
with the same date is read back sorted but not strictly descending — the
read path sorts and never deduplicates. -/
theorem read_strict_desc_counterexample :
    read_local_stock_data exDupFS "A" = some [(exTs, exRow), (exTs, exRow)]
    ∧ ¬ StrictDescDates [(exTs, exRow), (exTs, exRow)] := by
  constructor
  · decide
  · decide

/-- C4 amended: every merge output is strictly descending by date; every
storage-read output is sorted descending by date, and strictly descending
whenever the stored file's dates are distinct. -/
theorem read_merge_sorted_desc (old new : List Entry) :
    StrictDescDates (mergeSeries old new)
    ∧ ∀ fs sym s, read_local_stock_data fs sym = some s →
        DescDates s ∧ ((dates s).Nodup → StrictDescDates s) := by
  refine ⟨mergeSeries_strictDesc old new, ?_⟩
  intro fs sym s h
  unfold read_local_stock_data at h
  cases hfc : fs (filePath sym) with
  | none => rw [hfc] at h; exact Option.noConfusion h
  | some c =>
    cases c with
    | malformed => rw [hfc] at h; exact Option.noConfusion h
    | table rows =>
      rw [hfc] at h
      have hs : s = sortDesc rows := (Option.some.inj h).symm
      subst hs
      exact ⟨descDates_sortDesc rows,
        fun hnd => strictDesc_of_desc_nodup (descDates_sortDesc rows) hnd⟩

/-- Witness for the amended C4: the duplicated-date file read above is
still weakly descending, and a concrete merge output is strictly
descending. -/
theorem read_merge_sorted_desc_witness :
    (StrictDescDates (mergeSeries [(exTs, exRow)] [(exTs2, exRow2)]))
    ∧ DescDates [(exTs, exRow), (exTs, exRow)]
    ∧ ((dates [(exTs, exRow), (exTs, exRow)]).Nodup
        → StrictDescDates [(exTs, exRow), (exTs, exRow)]) :=
  ⟨(read_merge_sorted_desc [(exTs, exRow)] [(exTs2, exRow2)]).1,
    (read_merge_sorted_desc [] []).2 exDupFS "A"
      [(exTs, exRow), (exTs, exRow)] (by decide)⟩

theorem update_stock_data_structured (symbol : String)
    (fetch : Except String (List Entry)) (fs : FS)
    (temp_path : String) (f : SaveFailure) :
    ((update_stock_data symbol fetch fs temp_path f).1.status = "success"
      ∨ (update_stock_data symbol fetch fs temp_path f).1.status = "error")
    ∧ (update_stock_data symbol fetch fs temp_path f).1.message ≠ "" := by
  unfold update_stock_data
  split
  · exact ⟨Or.inr rfl, append_ne_empty_left _ _
      (append_ne_empty_left _ _ (append_ne_empty_left _ _ (by decide)))⟩
  · split
    · exact ⟨Or.inr rfl, append_ne_empty_left _ _ (by decide)⟩
    · dsimp only
      split
      · exact ⟨Or.inl rfl, append_ne_empty_left _ _ (by decide)⟩
      · exact ⟨Or.inr rfl, append_ne_empty_left _ _ (by decide)⟩

/-- C5: for every input — including arguments that fail validation and
internal steps that raise — each of the two exposed tools returns a
structured result whose status is success or error and whose message is a
nonempty human-readable string; no exception crosses the tool boundary
(both tools are total functions into result dictionaries). -/
theorem tools_return_structured_results (rargs : Except String String)
    (uargs : Except String (String × String))
    (fetch : Except String (List Entry)) (fs : FS)
    (temp_path : String) (f : SaveFailure) :
    (((get_local_stock_data rargs fs).status = "success"
        ∨ (get_local_stock_data rargs fs).status = "error")
      ∧ (get_local_stock_data rargs fs).message ≠ "")
    ∧ (((update_stock_data_tool uargs fetch fs temp_path f).1.status
          = "success"
        ∨ (update_stock_data_tool uargs fetch fs temp_path f).1.status
          = "error")
      ∧ (update_stock_data_tool uargs fetch fs temp_path f).1.message
          ≠ "") := by
  constructor
  · cases rargs with
    | error e => exact ⟨Or.inr rfl, append_ne_empty_left _ _ (by decide)⟩
    | ok symbol =>
      unfold get_local_stock_data
      dsimp only
      cases hr : read_local_stock_data fs symbol with
      | none => exact ⟨Or.inr rfl, append_ne_empty_left _ _ (by decide)⟩
      | some data => exact ⟨Or.inl rfl, append_ne_empty_left _ _ (by decide)⟩
  · cases uargs with
    | error e => exact ⟨Or.inr rfl, append_ne_empty_left _ _ (by decide)⟩
    | ok p =>
      obtain ⟨symbol, sd⟩ := p
      exact update_stock_data_structured symbol fetch fs temp_path f

/-- C7 as stated is false: an existing cache file whose date column is
unparseable is read back as `None`, the very same absence signal returned
when no file exists, and the read tool's result is identical to the
not-found result — no distinct parse/read error surfaces. -/
theorem parse_error_counterexample :
    exBadFS (filePath "A") = some FileContent.malformed
    ∧ read_local_stock_data exBadFS "A" = none
    ∧ read_local_stock_data emptyFS "A" = none
    ∧ get_local_stock_data (Except.ok "A") exBadFS
        = get_local_stock_data (Except.ok "A") emptyFS := by
  refine ⟨?_, ?_, ?_, ?_⟩ <;> decide

/-- C7 amended: when the cached file exists but its date column is
unparseable, the pure read catches the exception and returns the same
absence signal as a missing file, and the read tool consequently reports
the not-found error — parse failures are indistinguishable from absence
for the caller. -/
theorem parse_error_reads_as_absent (fs : FS) (sym : String)
    (h : fs (filePath sym) = some FileContent.malformed) :
    read_local_stock_data fs sym = none
    ∧ get_local_stock_data (Except.ok sym) fs
        = ⟨"error", "Data not found for symbol " ++ sym, []⟩ := by
  have hr : read_local_stock_data fs sym = none := by
    unfold read_local_stock_data
    rw [h]
  refine ⟨hr, ?_⟩
  unfold get_local_stock_data
  dsimp only
  rw [hr]

/-- Witness for the amended C7 at the concrete malformed file. -/
theorem parse_error_reads_as_absent_witness :
    exBadFS (filePath "A") = some FileContent.malformed
    ∧ (read_local_stock_data exBadFS "A" = none
      ∧ get_local_stock_data (Except.ok "A") exBadFS
          = ⟨"error", "Data not found for symbol " ++ "A", []⟩) :=
  ⟨by decide, parse_error_reads_as_absent exBadFS "A" (by decide)⟩

/-- C8 as stated is false: the cache path uses the symbol string verbatim
(no uppercasing), so requests differing only in letter case resolve to
different files — here "aapl" misses the file stored for "AAPL". -/
theorem uppercase_naming_counterexample :
    filePath "aapl" = "aapl.csv"
    ∧ "aapl.csv" ≠ "AAPL.csv"
    ∧ read_local_stock_data exUpperFS "AAPL" = some [(exTs, exRow)]
    ∧ read_local_stock_data exUpperFS "aapl" = none := by
  refine ⟨?_, ?_, ?_, ?_⟩ <;> decide

/-- C8 amended: the cache file is named by the symbol string exactly as
given, with a ".csv" suffix and no case normalization; distinct symbol
strings (in particular case variants) always name distinct files. -/
theorem filePath_verbatim (s1 s2 : String) (h : s1 ≠ s2) :
    filePath s1 = s1 ++ ".csv" ∧ filePath s1 ≠ filePath s2 := by
  refine ⟨rfl, ?_⟩
  intro hc
  apply h
  unfold filePath at hc
  have hd := congrArg String.data hc
  rw [String.data_append, String.data_append] at hd
  exact String.ext (List.append_cancel_right hd)

/-- Witness for the amended C8 on the two case variants. -/
theorem filePath_verbatim_witness :
    ("aapl" ≠ "AAPL")
    ∧ (filePath "aapl" = "aapl" ++ ".csv"
      ∧ filePath "aapl" ≠ filePath "AAPL") :=
  ⟨by decide, filePath_verbatim "aapl" "AAPL" (by decide)⟩

/-- C9 as stated is false: the code never strips a time component from
provider timestamps, so a successful update whose fetched row carries a
time-of-day persists a file whose date cell is rendered with the time
(pandas prints a datetime column date-only only when every value is a
pure date) — not in plain YYYY-MM-DD form. -/
theorem csv_date_format_counterexample :
    (update_stock_data "AAPL" (Except.ok [(exTsTime, exRow)]) emptyFS
        "tmp0.csv" SaveFailure.ok).1.status = "success"
    ∧ (update_stock_data "AAPL" (Except.ok [(exTsTime, exRow)]) emptyFS
        "tmp0.csv" SaveFailure.ok).2 (filePath "AAPL")
        = some (FileContent.table [(exTsTime, exRow)])
    ∧ toCsvLines [(exTsTime, exRow)]
        = ["Date,Open,High,Low,Close,Volume",
            "2024-01-02 05:00:00,1,2,3,4,5"]
    ∧ "2024-01-02 05:00:00,1,2,3,4,5"
        ≠ fmtDate exTsTime ++ ",1,2,3,4,5" := by
  refine ⟨?_, ?_, ?_, ?_⟩ <;> decide

/-- C9 amended: every file a successful update persists renders as the
header Date,Open,High,Low,Close,Volume followed by one line per row, rows
strictly descending by date with unique dates (given the fetched series
has unique dates); the date cells are in plain YYYY-MM-DD form exactly
when every timestamp of the written series has a zero time component —
the code itself performs no time normalization. -/
theorem update_write_layout (symbol : String) (rows : List Entry) (fs : FS)
    (temp_path : String)
    (hne : rows ≠ [])
    (hnd : (dates rows).Nodup) :
    ∃ s,
      (update_stock_data symbol (Except.ok rows) fs temp_path
          SaveFailure.ok).1.status = "success"
      ∧ (update_stock_data symbol (Except.ok rows) fs temp_path
          SaveFailure.ok).2 (filePath symbol) = some (FileContent.table s)
      ∧ StrictDescDates s
      ∧ (dates s).Nodup
      ∧ toCsvLines s = csvHeader :: s.map (rowLine (datesOnlyB s))
      ∧ ((∀ e ∈ s, e.1.sec = 0) →
          toCsvLines s = csvHeader :: s.map (fun e =>
            fmtDate e.1 ++ "," ++ toString e.2.open_ ++ ","
              ++ toString e.2.high ++ "," ++ toString e.2.low ++ ","
              ++ toString e.2.close ++ "," ++ toString e.2.volume)) := by
  have hie : rows.isEmpty = false := by
    cases rows with
    | nil => exact absurd rfl hne
    | cons a l => rfl
  refine ⟨sortDesc (updCombined symbol fs rows), ?_, ?_, ?_, ?_, rfl, ?_⟩
  · rw [update_ok_writes symbol rows fs temp_path hie]
  · rw [update_ok_writes symbol rows fs temp_path hie]
    exact fsSet_same _ _ _
  · exact strictDesc_of_desc_nodup (descDates_sortDesc _)
      (dates_sortDesc_nodup (updCombined_nodup symbol fs hnd))
  · exact dates_sortDesc_nodup (updCombined_nodup symbol fs hnd)
  · intro hz
    have hb : datesOnlyB (sortDesc (updCombined symbol fs rows)) = true := by
      unfold datesOnlyB
      rw [List.all_eq_true]
      intro e he
      exact beq_iff_eq.mpr (hz e he)
    unfold toCsvLines
    rw [hb]
    rfl

/-- Witness for the amended C9 at a concrete one-row pure-date fetch into
an empty directory. -/
theorem update_write_layout_witness :
    ([(exTs, exRow)] ≠ ([] : List Entry) ∧ (dates [(exTs, exRow)]).Nodup)
    ∧ ∃ s,
      (update_stock_data "A" (Except.ok [(exTs, exRow)]) emptyFS "tmp0.csv"
          SaveFailure.ok).1.status = "success"
      ∧ (update_stock_data "A" (Except.ok [(exTs, exRow)]) emptyFS "tmp0.csv"
          SaveFailure.ok).2 (filePath "A") = some (FileContent.table s)
      ∧ StrictDescDates s
      ∧ (dates s).Nodup
      ∧ toCsvLines s = csvHeader :: s.map (rowLine (datesOnlyB s))
      ∧ ((∀ e ∈ s, e.1.sec = 0) →
          toCsvLines s = csvHeader :: s.map (fun e =>
            fmtDate e.1 ++ "," ++ toString e.2.open_ ++ ","
              ++ toString e.2.high ++ "," ++ toString e.2.low ++ ","
              ++ toString e.2.close ++ "," ++ toString e.2.volume)) :=
  ⟨⟨by decide, by decide⟩,
    update_write_layout "A" [(exTs, exRow)] emptyFS "tmp0.csv"
      (by decide) (by decide)⟩
